import Mathlib

/-!
Verification of the `mmio-sockdev` bridge device
(`hw/misc/mmio_sockdev.c`): a QEMU SysBus device that proxies MMIO
accesses to an external peer over a byte-stream transport.

Shallow embedding conventions:
* bytes are `Nat` values (each produced byte is `< 256`);
* the chardev transport (`qemu_chr_fe_write_all` / `qemu_chr_fe_read_all`)
  is a structure of two functions: `writeAll` returns the number of bytes
  accepted, `readAll` returns the bytes obtained for a request of `n`;
* each handler returns, besides its value, a trace of the externally
  visible events it performed (lock operations, transport writes and
  reads, `error_report` calls), in program order.
-/

namespace MmioSockdev

/-- Little-endian byte encoding of `v` in `n` bytes, mirroring
`stl_le_p` / `stw_le_p` (which store `v mod 2^(8n)`). -/
def toLE : Nat → Nat → List Nat
  | 0, _ => []
  | n + 1, v => v % 256 :: toLE n (v / 256)

/-- Little-endian decoding of a byte list, mirroring `ldl_le_p` /
`lduw_le_p`. -/
def fromLE : List Nat → Nat
  | [] => 0
  | b :: bs => b + 256 * fromLE bs

/-- The transport backend: `writeAll bs` returns how many bytes were
written (`qemu_chr_fe_write_all`), `readAll n` returns the bytes read
when `n` were requested (`qemu_chr_fe_read_all`; its return value is the
length of the returned list). -/
structure Transport where
  writeAll : List Nat → Nat
  readAll : Nat → List Nat

/-- The distinct `error_report` messages of `mmio_sockdev.c`. -/
inductive ErrMsg where
  | sendReadFail      -- "failed to send read request"
  | readRespFail      -- "failed to read response"
  | invalidReadSize   -- "invalid read size %u"
  | invalidWriteSize  -- "invalid write size %u"
  | sendWriteFail     -- "failed to send write request"
deriving DecidableEq, Repr

/-- Externally visible events of one handler invocation, in program
order. -/
inductive Ev where
  | lockAcq                                -- qemu_mutex_lock
  | lockRel                                -- qemu_mutex_unlock
  | sent (bytes : List Nat)                -- qemu_chr_fe_write_all call
  | received (n : Nat) (data : List Nat)   -- qemu_chr_fe_read_all call
  | logErr (e : ErrMsg)                    -- error_report call
deriving DecidableEq, Repr

/-- The transport-write events of a trace. -/
def sentEvts (tr : List Ev) : List (List Nat) :=
  tr.filterMap fun e => match e with
    | Ev.sent bs => some bs
    | _ => none

/-- The transport-read events of a trace. -/
def recvEvts (tr : List Ev) : List (Nat × List Nat) :=
  tr.filterMap fun e => match e with
    | Ev.received n data => some (n, data)
    | _ => none

/-- The 6-byte read request built by `mmio_sockdev_read`:
`req[0] = 'R'` (0x52), `req[1..4] = stl_le_p((uint32_t)offset)`,
`req[5] = (uint8_t)size`. -/
def readReqPacket (offset size : Nat) : List Nat :=
  0x52 :: toLE 4 (offset % 2 ^ 32) ++ [size % 256]

/-- The data bytes packed at `req+6` by `mmio_sockdev_write` (the cases
of its `switch (size)`): casts to `uint8_t`/`uint16_t`/`uint32_t`
followed by a little-endian store. -/
def writeData (size value : Nat) : List Nat :=
  if size = 1 then [value % 256]
  else if size = 2 then toLE 2 (value % 2 ^ 16)
  else if size = 4 then toLE 4 (value % 2 ^ 32)
  else []

/-- The `6 + size`-byte write request built by `mmio_sockdev_write`:
`'W'` (0x57), address little-endian, size byte, then the data bytes. -/
def writeReqPacket (offset size value : Nat) : List Nat :=
  0x57 :: toLE 4 (offset % 2 ^ 32) ++ size % 256 :: writeData size value

/-- The response decoding performed by the `switch (size)` of
`mmio_sockdev_read`: `buf` is the 8-byte zero-initialised buffer whose
first `data.length` bytes were filled by the transport read; size 1
takes `buf[0]`, size 2 `lduw_le_p(buf)`, size 4 `ldl_le_p(buf)`, any
other size leaves the value at 0. -/
def decodeResp (size : Nat) (data : List Nat) : Nat :=
  let buf := data ++ List.replicate (8 - data.length) 0
  if size = 1 then fromLE (buf.take 1)
  else if size = 2 then fromLE (buf.take 2)
  else if size = 4 then fromLE (buf.take 4)
  else 0

/-- `mmio_sockdev_read`: lock; build and send the 6-byte request; on a
short send report and bail out with 0; otherwise read `size` response
bytes; on a short read report and bail out with 0; otherwise decode per
the size switch (whose `default` reports an invalid size and leaves the
value 0); unlock on every path. -/
def mmio_sockdev_read (t : Transport) (offset size : Nat) : Nat × List Ev :=
  let req := readReqPacket offset size
  let ret := t.writeAll req
  if ret ≠ 6 then
    (0, [Ev.lockAcq, Ev.sent req, Ev.logErr ErrMsg.sendReadFail, Ev.lockRel])
  else
    let data := t.readAll size
    if data.length ≠ size then
      (0, [Ev.lockAcq, Ev.sent req, Ev.received size data,
           Ev.logErr ErrMsg.readRespFail, Ev.lockRel])
    else
      if size = 1 ∨ size = 2 ∨ size = 4 then
        (decodeResp size data,
         [Ev.lockAcq, Ev.sent req, Ev.received size data, Ev.lockRel])
      else
        (0, [Ev.lockAcq, Ev.sent req, Ev.received size data,
             Ev.logErr ErrMsg.invalidReadSize, Ev.lockRel])

/-- `mmio_sockdev_write`: lock; build the header; the size switch packs
the data bytes, its `default` reports an invalid size and jumps to
`unlock` without sending; otherwise send the `6 + size`-byte packet and
report a short send; unlock on every path. -/
def mmio_sockdev_write (t : Transport) (offset value size : Nat) : List Ev :=
  if size = 1 ∨ size = 2 ∨ size = 4 then
    let packet := writeReqPacket offset size value
    let ret := t.writeAll packet
    if ret ≠ 6 + size then
      [Ev.lockAcq, Ev.sent packet, Ev.logErr ErrMsg.sendWriteFail, Ev.lockRel]
    else
      [Ev.lockAcq, Ev.sent packet, Ev.lockRel]
  else
    [Ev.lockAcq, Ev.logErr ErrMsg.invalidWriteSize, Ev.lockRel]

/-- The resources `mmio_sockdev_realize` initialises when it succeeds. -/
structure RealizedDev where
  lockInitialized : Bool
  mmioSize : Nat
  mmioMapped : Bool
deriving DecidableEq, Repr

/-- `mmio_sockdev_realize`: if the chardev backend is not connected, set
the error and return before any resource is initialised; otherwise init
the mutex, create the 0x1000-byte MMIO region and map it iff a nonzero
base address was configured. -/
def mmio_sockdev_realize (connected : Bool) (base_addr : Nat) :
    Except String RealizedDev :=
  if !connected then
    Except.error "mmio-sockdev: chardev not connected"
  else
    Except.ok { lockInitialized := true, mmioSize := 0x1000,
                mmioMapped := base_addr != 0 }

/-- A transport that accepts every write in full and supplies exactly
the requested number of response bytes (all zero). -/
def healthyT : Transport :=
  { writeAll := fun bs => bs.length, readAll := fun n => List.replicate n 0 }

/-- A transport whose writes fail immediately (0 bytes accepted). -/
def deadT : Transport :=
  { writeAll := fun _ => 0, readAll := fun n => List.replicate n 0 }

/-- A transport that accepts writes in full but always returns one
response byte fewer than requested. -/
def shortT : Transport :=
  { writeAll := fun bs => bs.length, readAll := fun n => List.replicate (n - 1) 0 }

/-!
Interleaving semantics for concurrent accesses (claim C9).

Each guest access dispatched into the device runs the handler body:
`qemu_mutex_lock`, the transport operations of one protocol exchange,
`qemu_mutex_unlock`.  Several accesses may be dispatched concurrently
from different vCPU threads, so the system is modelled as one thread
per access, stepped by an arbitrary scheduler.  The lock is the only
synchronisation: a `lock` step requires the mutex to be free; transport
steps themselves are *not* guarded — serialisation must emerge from the
program shape alone, exactly as in the C code.
-/

/-- One transport-level operation of an exchange, as recorded by the
peer: an all-or-nothing write of `bytes`, or an all-or-nothing read of
`n` response bytes. -/
inductive TEvent where
  | sentB (bytes : List Nat)
  | recvB (n : Nat)
deriving DecidableEq, Repr

/-- Instructions of a handler thread. -/
inductive Instr where
  | lock
  | unlock
  | sendAll (bytes : List Nat)
  | recvAll (n : Nat)
deriving DecidableEq, Repr

/-- The instruction performing a transport event. -/
def instrOf : TEvent → Instr
  | TEvent.sentB bs => Instr.sendAll bs
  | TEvent.recvB n => Instr.recvAll n

/-- A system configuration: the mutex owner (`none` = free), the
remaining program of each thread, and the transport-side record of all
operations performed so far, tagged with the performing thread. -/
structure Conf where
  owner : Option Nat
  threads : List (List Instr)
  trace : List (Nat × TEvent)
deriving DecidableEq, Repr

/-- One step of thread `t`: `lock` succeeds only when the mutex is
free, `unlock` only for the owner; transport instructions always
execute and append their event to the transport record. -/
def stepOf (c : Conf) (t : Nat) : Option Conf :=
  match c.threads[t]? with
  | some (Instr.lock :: rest) =>
      if c.owner = none then
        some ⟨some t, c.threads.set t rest, c.trace⟩
      else none
  | some (Instr.unlock :: rest) =>
      if c.owner = some t then
        some ⟨none, c.threads.set t rest, c.trace⟩
      else none
  | some (Instr.sendAll bs :: rest) =>
      some ⟨c.owner, c.threads.set t rest, c.trace ++ [(t, TEvent.sentB bs)]⟩
  | some (Instr.recvAll n :: rest) =>
      some ⟨c.owner, c.threads.set t rest, c.trace ++ [(t, TEvent.recvB n)]⟩
  | _ => none

/-- The scheduler picks any thread that can step. -/
def Step (c c' : Conf) : Prop := ∃ t, stepOf c t = some c'

/-- Reachability under arbitrary scheduling. -/
inductive Reach : Conf → Conf → Prop
  | refl (c : Conf) : Reach c c
  | head {a b c : Conf} : Step a b → Reach b c → Reach a c

/-- Running a concrete schedule (a list of thread ids). -/
def runSched (c : Conf) : List Nat → Option Conf
  | [] => some c
  | t :: ts =>
      match stepOf c t with
      | some c' => runSched c' ts
      | none => none

/-- One guest access: a read `(offset, size)` or a write
`(offset, value, size)`. -/
inductive Access where
  | rd (offset size : Nat)
  | wr (offset value size : Nat)
deriving DecidableEq, Repr

/-- The transport operations of the access's protocol exchange (healthy
transport, valid size): a read sends the 6-byte request and then reads
`size` response bytes; a write sends its `6 + size`-byte packet and
reads nothing. -/
def exchange : Access → List TEvent
  | Access.rd offset size => [TEvent.sentB (readReqPacket offset size),
                              TEvent.recvB size]
  | Access.wr offset value size => [TEvent.sentB (writeReqPacket offset size value)]

/-- The handler thread for one access: lock, the exchange, unlock —
the shape of `mmio_sockdev_read` / `mmio_sockdev_write`. -/
def progOf (a : Access) : List Instr :=
  Instr.lock :: (exchange a).map instrOf ++ [Instr.unlock]

/-- Initial configuration: mutex free, one pristine handler thread per
access, empty transport record. -/
def initConf (as : List Access) : Conf :=
  ⟨none, as.map progOf, []⟩

/-- Events tagged with the thread that performed them. -/
def tagged (t : Nat) (es : List TEvent) : List (Nat × TEvent) :=
  es.map fun e => (t, e)

/-- Concatenation of tagged blocks. -/
def catBlocks : List (Nat × List TEvent) → List (Nat × TEvent)
  | [] => []
  | b :: bs => tagged b.1 b.2 ++ catBlocks bs

/-- The no-interleaving property of a transport record: it decomposes
into contiguous per-thread blocks, one block per thread. -/
def Chunked (tr : List (Nat × TEvent)) : Prop :=
  ∃ blocks : List (Nat × List TEvent),
    (blocks.map Prod.fst).Nodup ∧ tr = catBlocks blocks

/-- The exchange of thread `t` (empty for an out-of-range id). -/
def bodyOf (as : List Access) (t : Nat) : List TEvent :=
  match as[t]? with
  | some a => exchange a
  | none => []

/-- The pristine program of thread `t`. -/
def baseProg (as : List Access) (t : Nat) : List Instr :=
  match as[t]? with
  | some a => progOf a
  | none => []

/-- The remaining program of thread `t` in the abstract state
`(done, cur)`: finished threads are empty; the thread inside its
critical section (`cur = some (u, k)`, `k` events already performed)
still has the rest of its exchange and the unlock; all others are
pristine. -/
def threadState (as : List Access) (done : List Nat)
    (cur : Option (Nat × Nat)) (t : Nat) : List Instr :=
  if t ∈ done then []
  else
    match cur with
    | some (u, k) =>
        if t = u then ((bodyOf as t).drop k).map instrOf ++ [Instr.unlock]
        else baseProg as t
    | none => baseProg as t

/-- The full thread pool in abstract state `(done, cur)`. -/
def threadsOf (as : List Access) (done : List Nat)
    (cur : Option (Nat × Nat)) : List (List Instr) :=
  (List.range as.length).map (threadState as done cur)

/-- The transport record contributed by the finished threads, in
completion order. -/
def doneTrace (as : List Access) : List Nat → List (Nat × TEvent)
  | [] => []
  | t :: ts => tagged t (bodyOf as t) ++ doneTrace as ts

/-- The configuration denoted by abstract state `(done, cur)`. -/
def confOf (as : List Access) (done : List Nat)
    (cur : Option (Nat × Nat)) : Conf :=
  ⟨cur.map Prod.fst,
   threadsOf as done cur,
   doneTrace as done ++
     (match cur with
      | some (u, k) => tagged u ((bodyOf as u).take k)
      | none => [])⟩

/-- Well-formedness of an abstract state. -/
def ValidDC (as : List Access) (done : List Nat)
    (cur : Option (Nat × Nat)) : Prop :=
  done.Nodup ∧ (∀ t ∈ done, t < as.length) ∧
  match cur with
  | none => True
  | some (u, k) => u < as.length ∧ u ∉ done ∧ k ≤ (bodyOf as u).length

/-- The inductive invariant: every reachable configuration is denoted
by some well-formed abstract state. -/
def Inv (as : List Access) (c : Conf) : Prop :=
  ∃ done cur, ValidDC as done cur ∧ c = confOf as done cur

/-- A concrete two-access workload for the witness: one read and one
write through the same device. -/
def demoAccs : List Access :=
  [Access.rd 0 1, Access.wr 4 0x42 1]

/-- The final configuration of `demoAccs` under the schedule that runs
thread 0 to completion, then thread 1. -/
def demoFinal : Conf :=
  ⟨none, [[], []],
   [(0, TEvent.sentB (readReqPacket 0 1)), (0, TEvent.recvB 1),
    (1, TEvent.sentB (writeReqPacket 4 1 0x42))]⟩

lemma toLE_length : ∀ n v, (toLE n v).length = n := by
  intro n
  induction n with
  | zero => intro v; rfl
  | succ n ih => intro v; simp [toLE, ih]

lemma readReqPacket_length (offset size : Nat) :
    (readReqPacket offset size).length = 6 := by
  simp [readReqPacket, toLE_length]

lemma writeData_length (size value : Nat)
    (h : size = 1 ∨ size = 2 ∨ size = 4) :
    (writeData size value).length = size := by
  rcases h with h | h | h <;> subst h <;> simp [writeData, toLE_length]

lemma writeReqPacket_length (offset size value : Nat)
    (h : size = 1 ∨ size = 2 ∨ size = 4) :
    (writeReqPacket offset size value).length = 6 + size := by
  simp [writeReqPacket, toLE_length, writeData_length _ _ h]
  omega

lemma toLE_four (v : Nat) :
    toLE 4 v = [v % 256, v / 256 % 256, v / 256 / 256 % 256,
                v / 256 / 256 / 256 % 256] := by
  simp [toLE]

lemma fromLE_toLE_four (v : Nat) :
    fromLE (toLE 4 v) = v % 2 ^ 32 := by
  rw [toLE_four]
  simp only [fromLE]
  omega

/-- C3: for every offset and every size in {1,2,4}, `mmio_sockdev_read`
performs exactly one transport write, whose bytes are `'R'` (0x52), the
offset truncated to 32 bits in little-endian order, and the size byte —
6 bytes in total regardless of the access width. -/
theorem C3_read_request_format (t : Transport) (offset size : Nat)
    (h : size = 1 ∨ size = 2 ∨ size = 4) :
    sentEvts (mmio_sockdev_read t offset size).2 = [readReqPacket offset size] ∧
    readReqPacket offset size = 0x52 :: toLE 4 (offset % 2 ^ 32) ++ [size] ∧
    (readReqPacket offset size).length = 6 := by
  refine ⟨?_, ?_, readReqPacket_length offset size⟩
  · unfold mmio_sockdev_read
    dsimp only
    split_ifs <;> simp [sentEvts]
  · rcases h with h | h | h <;> subst h <;> rfl

theorem C3_witness :
    ((1 : Nat) = 1 ∨ (1 : Nat) = 2 ∨ (1 : Nat) = 4) ∧
    (sentEvts (mmio_sockdev_read healthyT 0 1).2 = [readReqPacket 0 1] ∧
     readReqPacket 0 1 = 0x52 :: toLE 4 (0 % 2 ^ 32) ++ [1] ∧
     (readReqPacket 0 1).length = 6) :=
  ⟨Or.inl rfl, C3_read_request_format healthyT 0 1 (Or.inl rfl)⟩

/-- C2: for every offset, every size in {1,2,4} and every value,
`mmio_sockdev_write` hands the transport exactly one packet of
`6 + size` bytes: `'W'` (0x57), the offset truncated to 32 bits
little-endian, the size byte, then the value truncated to `size` bytes
little-endian. -/
theorem C2_write_request_format (t : Transport) (offset value size : Nat)
    (h : size = 1 ∨ size = 2 ∨ size = 4) :
    sentEvts (mmio_sockdev_write t offset value size) =
      [writeReqPacket offset size value] ∧
    writeReqPacket offset size value =
      0x57 :: toLE 4 (offset % 2 ^ 32) ++ size :: toLE size (value % 256 ^ size) ∧
    (writeReqPacket offset size value).length = 6 + size := by
  refine ⟨?_, ?_, writeReqPacket_length offset size value h⟩
  · unfold mmio_sockdev_write
    rw [if_pos h]
    dsimp only
    split <;> simp [sentEvts]
  · rcases h with h | h | h <;> subst h <;> norm_num [writeReqPacket, writeData, toLE]

theorem C2_witness :
    (((1 : Nat) = 1 ∨ (1 : Nat) = 2 ∨ (1 : Nat) = 4) ∧
     (sentEvts (mmio_sockdev_write healthyT 0 0x42 1) = [writeReqPacket 0 1 0x42] ∧
      writeReqPacket 0 1 0x42 =
        0x57 :: toLE 4 (0 % 2 ^ 32) ++ 1 :: toLE 1 (0x42 % 256 ^ 1) ∧
      (writeReqPacket 0 1 0x42).length = 6 + 1)) ∧
    writeReqPacket 0 1 0x42 = [0x57, 0x00, 0x00, 0x00, 0x00, 0x01, 0x42] :=
  ⟨⟨Or.inl rfl, C2_write_request_format healthyT 0 0x42 1 (Or.inl rfl)⟩, by decide⟩

/-- C4: for every size in {1,2,4} and every value `v`, the response
decoding of `mmio_sockdev_read` applied to the little-endian encoding
of `v` in `size` bytes yields `v mod 2^(8*size)`. -/
theorem C4_decode_encode_roundtrip (size v : Nat)
    (h : size = 1 ∨ size = 2 ∨ size = 4) :
    decodeResp size (toLE size v) = v % 2 ^ (8 * size) := by
  rcases h with h | h | h <;> subst h <;>
    norm_num [decodeResp, toLE, fromLE] <;> omega

theorem C4_witness :
    ((2 : Nat) = 1 ∨ (2 : Nat) = 2 ∨ (2 : Nat) = 4) ∧
    decodeResp 2 (toLE 2 0x1234) = 0x1234 % 2 ^ (8 * 2) :=
  ⟨Or.inr (Or.inl rfl), C4_decode_encode_roundtrip 2 0x1234 (Or.inr (Or.inl rfl))⟩

/-- C6: for every offset, value and size outside {1,2,4},
`mmio_sockdev_write` reports an invalid access and returns having
performed zero transport writes (the trace is exactly lock,
error_report, unlock). -/
theorem C6_write_invalid_size_no_io (t : Transport) (offset value size : Nat)
    (h : ¬(size = 1 ∨ size = 2 ∨ size = 4)) :
    mmio_sockdev_write t offset value size =
      [Ev.lockAcq, Ev.logErr ErrMsg.invalidWriteSize, Ev.lockRel] ∧
    sentEvts (mmio_sockdev_write t offset value size) = [] := by
  unfold mmio_sockdev_write
  rw [if_neg h]
  exact ⟨rfl, by simp [sentEvts]⟩

theorem C6_witness :
    (¬((3 : Nat) = 1 ∨ (3 : Nat) = 2 ∨ (3 : Nat) = 4)) ∧
    (mmio_sockdev_write healthyT 7 0xdead 3 =
      [Ev.lockAcq, Ev.logErr ErrMsg.invalidWriteSize, Ev.lockRel] ∧
     sentEvts (mmio_sockdev_write healthyT 7 0xdead 3) = []) :=
  ⟨by decide, C6_write_invalid_size_no_io healthyT 7 0xdead 3 (by decide)⟩

/-- C7: for every transport, offset, value and size,
`mmio_sockdev_write` never performs a transport read — its trace
contains no `received` event on any path. -/
theorem C7_write_never_reads (t : Transport) (offset value size : Nat) :
    recvEvts (mmio_sockdev_write t offset value size) = [] := by
  unfold mmio_sockdev_write
  split
  · dsimp only
    split <;> simp [recvEvts]
  · simp [recvEvts]

/-- C1 (amended): for every offset and size outside {1,2,4},
`mmio_sockdev_read` does report the access as invalid and return the
sentinel 0, but only after the transport I/O: against a transport that
accepts the request and supplies `size` response bytes it performs one
transport write (the 6-byte request) and one transport read before the
size check in the decode switch fires. -/
theorem C1_invalid_read_size_after_io (t : Transport) (offset size : Nat)
    (h : ¬(size = 1 ∨ size = 2 ∨ size = 4))
    (hw : t.writeAll (readReqPacket offset size) = 6)
    (hr : (t.readAll size).length = size) :
    mmio_sockdev_read t offset size =
      (0, [Ev.lockAcq, Ev.sent (readReqPacket offset size),
           Ev.received size (t.readAll size),
           Ev.logErr ErrMsg.invalidReadSize, Ev.lockRel]) ∧
    (sentEvts (mmio_sockdev_read t offset size).2).length = 1 := by
  have h1 : mmio_sockdev_read t offset size =
      (0, [Ev.lockAcq, Ev.sent (readReqPacket offset size),
           Ev.received size (t.readAll size),
           Ev.logErr ErrMsg.invalidReadSize, Ev.lockRel]) := by
    simp [mmio_sockdev_read, hw, hr, h]
  refine ⟨h1, ?_⟩
  rw [h1]
  simp [sentEvts]

theorem C1_witness :
    (¬((3 : Nat) = 1 ∨ (3 : Nat) = 2 ∨ (3 : Nat) = 4)) ∧
    healthyT.writeAll (readReqPacket 0 3) = 6 ∧
    (healthyT.readAll 3).length = 3 ∧
    (mmio_sockdev_read healthyT 0 3 =
      (0, [Ev.lockAcq, Ev.sent (readReqPacket 0 3),
           Ev.received 3 (healthyT.readAll 3),
           Ev.logErr ErrMsg.invalidReadSize, Ev.lockRel]) ∧
     (sentEvts (mmio_sockdev_read healthyT 0 3).2).length = 1) :=
  ⟨by decide, by decide, by decide,
   C1_invalid_read_size_after_io healthyT 0 3 (by decide) (by decide) (by decide)⟩

/-- C1 (counterexample): at offset 0 with the invalid size 3, against a
healthy transport, `mmio_sockdev_read` does perform a transport write
and a transport read — refuting "zero transport writes and zero
transport reads" for invalid sizes on the read path. -/
theorem C1_counterexample :
    sentEvts (mmio_sockdev_read healthyT 0 3).2 ≠ [] ∧
    recvEvts (mmio_sockdev_read healthyT 0 3).2 ≠ [] := by decide

/-- C5: (a) if the transport accepts fewer than the 6 request bytes,
`mmio_sockdev_read` reports a transport failure, returns 0 and never
attempts a transport read; (b) if the request was sent but fewer than
`size` response bytes come back, it reports a transport failure and
returns 0; in both cases the trace ends by releasing the lock, and (c)
a subsequent independent access against a healthy transport succeeds
and returns the decoded response. -/
theorem C5_short_io :
    (∀ (t : Transport) (offset size : Nat),
        t.writeAll (readReqPacket offset size) ≠ 6 →
        mmio_sockdev_read t offset size =
          (0, [Ev.lockAcq, Ev.sent (readReqPacket offset size),
               Ev.logErr ErrMsg.sendReadFail, Ev.lockRel])) ∧
    (∀ (t : Transport) (offset size : Nat),
        t.writeAll (readReqPacket offset size) = 6 →
        (t.readAll size).length ≠ size →
        mmio_sockdev_read t offset size =
          (0, [Ev.lockAcq, Ev.sent (readReqPacket offset size),
               Ev.received size (t.readAll size),
               Ev.logErr ErrMsg.readRespFail, Ev.lockRel])) ∧
    (∀ (t : Transport) (offset size : Nat),
        (size = 1 ∨ size = 2 ∨ size = 4) →
        t.writeAll (readReqPacket offset size) = 6 →
        (t.readAll size).length = size →
        mmio_sockdev_read t offset size =
          (decodeResp size (t.readAll size),
           [Ev.lockAcq, Ev.sent (readReqPacket offset size),
            Ev.received size (t.readAll size), Ev.lockRel])) := by
  refine ⟨?_, ?_, ?_⟩
  · intro t offset size hw
    simp [mmio_sockdev_read, hw]
  · intro t offset size hw hr
    simp [mmio_sockdev_read, hw, hr]
  · intro t offset size h hw hr
    simp [mmio_sockdev_read, hw, hr, h]

theorem C5_witness :
    (deadT.writeAll (readReqPacket 0 4) ≠ 6 ∧
     mmio_sockdev_read deadT 0 4 =
       (0, [Ev.lockAcq, Ev.sent (readReqPacket 0 4),
            Ev.logErr ErrMsg.sendReadFail, Ev.lockRel])) ∧
    (shortT.writeAll (readReqPacket 0 4) = 6 ∧
     (shortT.readAll 4).length ≠ 4 ∧
     mmio_sockdev_read shortT 0 4 =
       (0, [Ev.lockAcq, Ev.sent (readReqPacket 0 4),
            Ev.received 4 (shortT.readAll 4),
            Ev.logErr ErrMsg.readRespFail, Ev.lockRel])) ∧
    (((4 : Nat) = 1 ∨ (4 : Nat) = 2 ∨ (4 : Nat) = 4) ∧
     healthyT.writeAll (readReqPacket 0 4) = 6 ∧
     (healthyT.readAll 4).length = 4 ∧
     mmio_sockdev_read healthyT 0 4 =
       (decodeResp 4 (healthyT.readAll 4),
        [Ev.lockAcq, Ev.sent (readReqPacket 0 4),
         Ev.received 4 (healthyT.readAll 4), Ev.lockRel])) :=
  ⟨⟨by decide, C5_short_io.1 deadT 0 4 (by decide)⟩,
   ⟨by decide, by decide, C5_short_io.2.1 shortT 0 4 (by decide) (by decide)⟩,
   ⟨by decide, by decide, by decide,
    C5_short_io.2.2 healthyT 0 4 (by decide) (by decide) (by decide)⟩⟩

/-- C8: when the chardev backend is not connected,
`mmio_sockdev_realize` reports the error to its caller and returns
before any resource (lock, MMIO region, mapping) is initialised: the
result is the bare error, never a realized device. -/
theorem C8_realize_requires_connected (base_addr : Nat) :
    mmio_sockdev_realize false base_addr =
      Except.error "mmio-sockdev: chardev not connected" := rfl

/-- C10: both request encoders truncate the 64-bit bus offset to 32
bits: two offsets congruent modulo 2^32 produce identical read and
write packets, and the 4-byte address field decodes to
`offset mod 2^32`. -/
theorem C10_offset_truncated_mod32 (off off' size value : Nat)
    (h : off % 2 ^ 32 = off' % 2 ^ 32) :
    readReqPacket off size = readReqPacket off' size ∧
    writeReqPacket off size value = writeReqPacket off' size value ∧
    fromLE (((readReqPacket off size).drop 1).take 4) = off % 2 ^ 32 ∧
    fromLE (((writeReqPacket off size value).drop 1).take 4) = off % 2 ^ 32 := by
  refine ⟨by simp only [readReqPacket, h], by simp only [writeReqPacket, h], ?_, ?_⟩
  · rw [readReqPacket, toLE_four]
    norm_num [fromLE]
    omega
  · rw [writeReqPacket, toLE_four]
    norm_num [fromLE]
    omega

theorem C10_witness :
    ((2 ^ 32 + 5 : Nat) % 2 ^ 32 = (5 : Nat) % 2 ^ 32) ∧
    (readReqPacket (2 ^ 32 + 5) 1 = readReqPacket 5 1 ∧
     writeReqPacket (2 ^ 32 + 5) 1 7 = writeReqPacket 5 1 7 ∧
     fromLE (((readReqPacket (2 ^ 32 + 5) 1).drop 1).take 4) = (2 ^ 32 + 5) % 2 ^ 32 ∧
     fromLE (((writeReqPacket (2 ^ 32 + 5) 1 7).drop 1).take 4) = (2 ^ 32 + 5) % 2 ^ 32) :=
  ⟨by decide, C10_offset_truncated_mod32 (2 ^ 32 + 5) 5 1 7 (by decide)⟩

/-! Helper lemmas for the concurrency invariant (claim C9). -/

lemma threadsOf_length (as : List Access) (done : List Nat)
    (cur : Option (Nat × Nat)) : (threadsOf as done cur).length = as.length := by
  simp [threadsOf]

lemma threadsOf_getElem (as : List Access) (done : List Nat)
    (cur : Option (Nat × Nat)) (t : Nat) (h : t < as.length) :
    (threadsOf as done cur)[t]? = some (threadState as done cur t) := by
  simp [threadsOf, List.getElem?_range, h]

lemma threadsOf_getElem_none (as : List Access) (done : List Nat)
    (cur : Option (Nat × Nat)) (t : Nat) (h : ¬t < as.length) :
    (threadsOf as done cur)[t]? = none := by
  apply List.getElem?_eq_none
  rw [threadsOf_length]
  omega

lemma threadsOf_set (as : List Access) {done cur done' cur'} (t : Nat)
    (x : List Instr) (ht : t < as.length)
    (hx : threadState as done' cur' t = x)
    (ho : ∀ i, i < as.length → i ≠ t →
        threadState as done cur i = threadState as done' cur' i) :
    (threadsOf as done cur).set t x = threadsOf as done' cur' := by
  apply List.ext_getElem?
  intro n
  by_cases hnt : n = t
  · subst hnt
    rw [List.getElem?_set_self', threadsOf_getElem as done cur n ht,
        threadsOf_getElem as done' cur' n ht, hx]
    rfl
  · rw [List.getElem?_set_ne (fun hh => hnt hh.symm)]
    by_cases hn : n < as.length
    · rw [threadsOf_getElem as done cur n hn, threadsOf_getElem as done' cur' n hn,
          ho n hn hnt]
    · rw [threadsOf_getElem_none as done cur n hn,
          threadsOf_getElem_none as done' cur' n hn]

lemma baseProg_eq (as : List Access) (t : Nat) (h : t < as.length) :
    baseProg as t = Instr.lock :: ((bodyOf as t).map instrOf ++ [Instr.unlock]) := by
  unfold baseProg bodyOf
  rw [List.getElem?_eq_getElem h]
  rfl

lemma tagged_append (t : Nat) (l1 l2 : List TEvent) :
    tagged t (l1 ++ l2) = tagged t l1 ++ tagged t l2 := by
  simp [tagged]

lemma doneTrace_append (as : List Access) (d1 d2 : List Nat) :
    doneTrace as (d1 ++ d2) = doneTrace as d1 ++ doneTrace as d2 := by
  induction d1 with
  | nil => simp [doneTrace]
  | cons t ts ih => simp [doneTrace, ih]

lemma catBlocks_append (b1 b2 : List (Nat × List TEvent)) :
    catBlocks (b1 ++ b2) = catBlocks b1 ++ catBlocks b2 := by
  induction b1 with
  | nil => simp [catBlocks]
  | cons b bs ih => simp [catBlocks, ih]

lemma catBlocks_map (as : List Access) (d : List Nat) :
    catBlocks (d.map fun t => (t, bodyOf as t)) = doneTrace as d := by
  induction d with
  | nil => rfl
  | cons t ts ih => simp [catBlocks, doneTrace, ih]

/-! Step characterisation on denoted configurations. -/

lemma stepOf_outrange (as : List Access) (done : List Nat)
    (cur : Option (Nat × Nat)) (t : Nat) (h : ¬t < as.length) :
    stepOf (confOf as done cur) t = none := by
  unfold stepOf
  rw [show (confOf as done cur).threads = threadsOf as done cur from rfl,
      threadsOf_getElem_none as done cur t h]

lemma stepOf_done (as : List Access) (done : List Nat)
    (cur : Option (Nat × Nat)) (t : Nat) (htl : t < as.length)
    (hmem : t ∈ done) :
    stepOf (confOf as done cur) t = none := by
  unfold stepOf
  rw [show (confOf as done cur).threads = threadsOf as done cur from rfl,
      threadsOf_getElem as done cur t htl]
  simp [threadState, hmem]

lemma stepOf_idle (as : List Access) (done : List Nat) (t : Nat)
    (htl : t < as.length) (hmem : t ∉ done) :
    stepOf (confOf as done none) t = some (confOf as done (some (t, 0))) := by
  unfold stepOf
  rw [show (confOf as done none).threads = threadsOf as done none from rfl,
      threadsOf_getElem as done none t htl]
  have hts : threadState as done none t =
      Instr.lock :: ((bodyOf as t).map instrOf ++ [Instr.unlock]) := by
    simp [threadState, hmem, baseProg_eq as t htl]
  rw [hts]
  have how : (confOf as done none).owner = none := rfl
  simp only [how, if_pos rfl]
  have hthreads : (threadsOf as done none).set t
        ((bodyOf as t).map instrOf ++ [Instr.unlock]) =
      threadsOf as done (some (t, 0)) := by
    refine threadsOf_set as t _ htl (by simp [threadState, hmem]) ?_
    intro i hi hit
    by_cases hid : i ∈ done
    · simp [threadState, hid]
    · simp [threadState, hid, hit]
  have htrace : (confOf as done none).trace =
      doneTrace as done ++ tagged t ((bodyOf as t).take 0) := by
    simp [confOf, tagged]
  refine congrArg some ?_
  unfold confOf
  simp only [Conf.mk.injEq]
  exact ⟨rfl, hthreads, htrace⟩

lemma stepOf_blocked (as : List Access) (done : List Nat) (u k t : Nat)
    (htl : t < as.length) (hmem : t ∉ done) (htu : t ≠ u) :
    stepOf (confOf as done (some (u, k))) t = none := by
  unfold stepOf
  rw [show (confOf as done (some (u, k))).threads =
        threadsOf as done (some (u, k)) from rfl,
      threadsOf_getElem as done (some (u, k)) t htl]
  have hts : threadState as done (some (u, k)) t =
      Instr.lock :: ((bodyOf as t).map instrOf ++ [Instr.unlock]) := by
    simp [threadState, hmem, htu, baseProg_eq as t htl]
  rw [hts]
  have how : (confOf as done (some (u, k))).owner = some u := rfl
  simp [how]

lemma stepOf_mid (as : List Access) (done : List Nat) (u k : Nat)
    (e : TEvent) (hu : u < as.length) (hmem : u ∉ done)
    (he : (bodyOf as u)[k]? = some e) :
    stepOf (confOf as done (some (u, k))) u =
      some (confOf as done (some (u, k + 1))) := by
  have hklt : k < (bodyOf as u).length := by
    rcases List.getElem?_eq_some_iff.mp he with ⟨h, _⟩
    exact h
  have hdrop : (bodyOf as u).drop k = e :: (bodyOf as u).drop (k + 1) := by
    rw [List.drop_eq_getElem_cons hklt]
    rcases List.getElem?_eq_some_iff.mp he with ⟨h, hg⟩
    rw [hg]
  unfold stepOf
  rw [show (confOf as done (some (u, k))).threads =
        threadsOf as done (some (u, k)) from rfl,
      threadsOf_getElem as done (some (u, k)) u hu]
  have hts : threadState as done (some (u, k)) u =
      instrOf e :: (((bodyOf as u).drop (k + 1)).map instrOf ++ [Instr.unlock]) := by
    simp [threadState, hmem, hdrop]
  rw [hts]
  have hthreads : (threadsOf as done (some (u, k))).set u
        (((bodyOf as u).drop (k + 1)).map instrOf ++ [Instr.unlock]) =
      threadsOf as done (some (u, k + 1)) := by
    refine threadsOf_set as u _ hu (by simp [threadState, hmem]) ?_
    intro i hi hit
    by_cases hid : i ∈ done
    · simp [threadState, hid]
    · simp [threadState, hid, hit]
  have htrace : (confOf as done (some (u, k))).trace ++ [(u, e)] =
      doneTrace as done ++ tagged u ((bodyOf as u).take (k + 1)) := by
    show doneTrace as done ++ tagged u ((bodyOf as u).take k) ++ [(u, e)] = _
    rw [List.take_succ, he, tagged_append, List.append_assoc]
    rfl
  cases e with
  | sentB bs =>
      simp only [instrOf]
      congr 1
      unfold confOf
      simp only [Option.map_some, Conf.mk.injEq]
      exact ⟨rfl, hthreads, htrace⟩
  | recvB n =>
      simp only [instrOf]
      congr 1
      unfold confOf
      simp only [Option.map_some, Conf.mk.injEq]
      exact ⟨rfl, hthreads, htrace⟩

lemma stepOf_unlock (as : List Access) (done : List Nat) (u : Nat)
    (hu : u < as.length) (hmem : u ∉ done) :
    stepOf (confOf as done (some (u, (bodyOf as u).length))) u =
      some (confOf as (done ++ [u]) none) := by
  unfold stepOf
  rw [show (confOf as done (some (u, (bodyOf as u).length))).threads =
        threadsOf as done (some (u, (bodyOf as u).length)) from rfl,
      threadsOf_getElem as done (some (u, (bodyOf as u).length)) u hu]
  have hts : threadState as done (some (u, (bodyOf as u).length)) u =
      [Instr.unlock] := by
    simp [threadState, hmem, List.drop_length]
  rw [hts]
  have how : (confOf as done (some (u, (bodyOf as u).length))).owner = some u := rfl
  simp only [how, if_pos rfl]
  have hthreads : (threadsOf as done (some (u, (bodyOf as u).length))).set u [] =
      threadsOf as (done ++ [u]) none := by
    refine threadsOf_set as u [] hu (by simp [threadState]) ?_
    intro i hi hit
    by_cases hid : i ∈ done
    · simp [threadState, hid, List.mem_append, hit]
    · simp [threadState, hid, hit, List.mem_append]
  have htrace : (confOf as done (some (u, (bodyOf as u).length))).trace =
      doneTrace as (done ++ [u]) ++ [] := by
    show doneTrace as done ++ tagged u ((bodyOf as u).take (bodyOf as u).length) = _
    rw [doneTrace_append, List.take_length]
    simp [doneTrace]
  refine congrArg some ?_
  unfold confOf
  simp only [Conf.mk.injEq]
  exact ⟨rfl, hthreads, htrace⟩

/-! The invariant holds initially and is preserved by every step. -/

lemma inv_init (as : List Access) : Inv as (initConf as) := by
  refine ⟨[], none, ⟨List.nodup_nil, by simp, trivial⟩, ?_⟩
  unfold initConf confOf
  simp only [Conf.mk.injEq]
  refine ⟨rfl, ?_, by simp [doneTrace]⟩
  apply List.ext_getElem?
  intro n
  by_cases hn : n < as.length
  · rw [threadsOf_getElem as [] none n hn, List.getElem?_map,
        List.getElem?_eq_getElem hn]
    have hbp : baseProg as n = progOf as[n] := by
      unfold baseProg
      rw [List.getElem?_eq_getElem hn]
    simp [threadState, hbp]
  · rw [threadsOf_getElem_none as [] none n hn, List.getElem?_map,
        List.getElem?_eq_none (by omega)]
    rfl

lemma inv_step (as : List Access) {c c' : Conf} (hI : Inv as c)
    (hS : Step c c') : Inv as c' := by
  obtain ⟨done, cur, ⟨hnd, hdlt, hcur⟩, rfl⟩ := hI
  obtain ⟨t, ht⟩ := hS
  by_cases htl : t < as.length
  case neg =>
    rw [stepOf_outrange as done cur t htl] at ht
    exact absurd ht (by simp)
  by_cases hmem : t ∈ done
  case pos =>
    rw [stepOf_done as done cur t htl hmem] at ht
    exact absurd ht (by simp)
  cases cur with
  | none =>
      rw [stepOf_idle as done t htl hmem] at ht
      obtain rfl : confOf as done (some (t, 0)) = c' := Option.some.inj ht
      exact ⟨done, some (t, 0), ⟨hnd, hdlt, htl, hmem, Nat.zero_le _⟩, rfl⟩
  | some p =>
      obtain ⟨u, k⟩ := p
      obtain ⟨hu, humem, hk⟩ := hcur
      by_cases htu : t = u
      case neg =>
        rw [stepOf_blocked as done u k t htl hmem htu] at ht
        exact absurd ht (by simp)
      subst htu
      by_cases hklt : k < (bodyOf as t).length
      case pos =>
        obtain ⟨e, he⟩ : ∃ e, (bodyOf as t)[k]? = some e :=
          ⟨(bodyOf as t)[k], List.getElem?_eq_getElem hklt⟩
        rw [stepOf_mid as done t k e htl hmem he] at ht
        obtain rfl : confOf as done (some (t, k + 1)) = c' := Option.some.inj ht
        exact ⟨done, some (t, k + 1), ⟨hnd, hdlt, htl, hmem, hklt⟩, rfl⟩
      case neg =>
        obtain rfl : k = (bodyOf as t).length := by omega
        rw [stepOf_unlock as done t htl hmem] at ht
        obtain rfl : confOf as (done ++ [t]) none = c' := Option.some.inj ht
        refine ⟨done ++ [t], none, ⟨?_, ?_, trivial⟩, rfl⟩
        · simp [List.nodup_append, hnd, hmem]
        · intro i hi
          rcases List.mem_append.mp hi with hi | hi
          · exact hdlt i hi
          · simp at hi
            omega

lemma inv_reach (as : List Access) {a c : Conf} (h : Reach a c) :
    Inv as a → Inv as c := by
  induction h with
  | refl => exact id
  | head s r ih => intro ha; exact ih (inv_step as ha s)

lemma chunked_of_inv (as : List Access) {c : Conf} (h : Inv as c) :
    Chunked c.trace := by
  obtain ⟨done, cur, ⟨hnd, _, hcur⟩, rfl⟩ := h
  have hmf : (done.map fun t => (t, bodyOf as t)).map Prod.fst = done := by
    rw [List.map_map]
    simp [Function.comp_def]
  cases cur with
  | none =>
      refine ⟨done.map fun t => (t, bodyOf as t), ?_, ?_⟩
      · rw [hmf]; exact hnd
      · show doneTrace as done ++ [] = _
        rw [catBlocks_map, List.append_nil]
  | some p =>
      obtain ⟨u, k⟩ := p
      obtain ⟨hu, humem, hk⟩ := hcur
      refine ⟨(done.map fun t => (t, bodyOf as t)) ++ [(u, (bodyOf as u).take k)],
              ?_, ?_⟩
      · rw [List.map_append, hmf]
        simp [List.nodup_append, hnd, humem]
      · rw [catBlocks_append, catBlocks_map]
        show doneTrace as done ++ tagged u ((bodyOf as u).take k) = _
        simp [catBlocks]

lemma runSched_reach : ∀ (sched : List Nat) (c c' : Conf),
    runSched c sched = some c' → Reach c c' := by
  intro sched
  induction sched with
  | nil =>
      intro c c' h
      obtain rfl : c = c' := Option.some.inj h
      exact Reach.refl c
  | cons t ts ih =>
      intro c c' h
      unfold runSched at h
      cases hs : stepOf c t with
      | none => rw [hs] at h; exact absurd h (by simp)
      | some b => rw [hs] at h; exact Reach.head ⟨t, hs⟩ (ih b c' h)

/-- C9: for every collection of concurrent accesses through the same
device and every configuration reachable under arbitrary scheduling,
the transport-side record decomposes into contiguous per-access blocks:
the mutual-exclusion lock fully serialises the protocol exchanges, so
the bytes of one access's request (and, for reads, its response read)
are never interleaved with those of another access. -/
theorem C9_exchanges_serialized (as : List Access) (c : Conf)
    (h : Reach (initConf as) c) : Chunked c.trace :=
  chunked_of_inv as (inv_reach as h (inv_init as))

theorem C9_witness :
    Reach (initConf demoAccs) demoFinal ∧ Chunked demoFinal.trace :=
  have hr : Reach (initConf demoAccs) demoFinal :=
    runSched_reach [0, 0, 0, 0, 1, 1, 1] (initConf demoAccs) demoFinal (by decide)
  ⟨hr, C9_exchanges_serialized demoAccs demoFinal hr⟩

end MmioSockdev
